import Mathlib

/-!
  Verification of the pool activation functions of finn-hlslib (src/pool.hpp).

  The C++ code is templated over HLS arbitrary-precision fixed-point types
  (TA, TO).  We embed such a type as the set of integers representable in a
  given bit-width: a signed type of width w holds the interval
  [-2^(w-1), 2^(w-1)-1] with two's-complement wraparound on conversion, an
  unsigned type of width w holds [0, 2^w-1] with reduction modulo 2^w.
  Values are carried as Lean integers; conversions wrap explicitly.
-/

/-- Interpret the integer x as a signed two's-complement value of bit-width w:
    reduce modulo 2^w into [0, 2^w), then shift the upper half down by 2^w. -/
def toSigned (w : Nat) (x : Int) : Int :=
  let r := x % ((2 : Int) ^ w)
  if r < (2 : Int) ^ (w - 1) then r else r - (2 : Int) ^ w

/-- Conversion of the integer x to the HLS type of width w: two's-complement
    wrap when the type is signed, reduction modulo 2^w when unsigned. -/
def convT (w : Nat) (sgn : Bool) (x : Int) : Int :=
  if sgn then toSigned w x else x % ((2 : Int) ^ w)

/-- x is representable in a signed type of bit-width w. -/
def inRange (w : Nat) (x : Int) : Prop :=
  -((2 : Int) ^ (w - 1)) ≤ x ∧ x < (2 : Int) ^ (w - 1)

instance (w : Nat) (x : Int) : Decidable (inRange w x) := by
  unfold inRange; infer_instance

namespace comp

/-- Modelled from the spec: the comparison/maximum primitive comp::max of
    activations.hpp (not under src/) — "max(a: T, b: T) -> T, total order
    over T". -/
def maxOp (a b : Int) : Int := max a b

/-- Modelled from the spec: the addition primitive comp::add of
    activations.hpp (not under src/) — "add(a: T, b: T) -> T, standard
    two's-complement or unsigned wraparound semantics per T's width";
    signed (two's-complement) instantiation at width w. -/
def addOp (w : Nat) (a b : Int) : Int := toSigned w (a + b)

end comp

namespace PoolFunction

/-- PoolFunction::init — returns TA(0). -/
def init : Int := 0

end PoolFunction

namespace MaxPoolFunction

/-- MaxPoolFunction::init — the C++ computes
    const T T_MIN_VAL = (T(-1)<0) ? 1<<(T::width-1) : 0 and converts the
    selected int arm to T.  The literal 1 is a 32-bit C++ int, so the shift
    is an int shift: for counts up to 30 its value is 2^(width-1); at count
    31 the result wraps into the 32-bit int (two's-complement conversion,
    implementation-defined before C++20 but universal on HLS targets),
    which toSigned 32 captures; for counts ≥ 32 (width ≥ 33) the shift is
    undefined behaviour and produces no value, so the embedding returns
    none.  For unsigned T the condition is false and the shift arm is
    never evaluated. -/
def init (w : Nat) (sgn : Bool) : Option Int :=
  if convT w sgn (-1) < 0 then
    if 32 ≤ w - 1 then none
    else some (convT w sgn (toSigned 32 ((2 : Int) ^ (w - 1))))
  else some (convT w sgn 0)

/-- MaxPoolFunction::pool — comp::max<T,T,T>()(input, accu). -/
def pool (input accu : Int) : Int := comp.maxOp input accu

/-- MaxPoolFunction::activate — returns accu. -/
def activate (accu : Int) : Int := accu

/-- One window's lifecycle up to (not including) activate, on a signed type
    of width w: accu = init(); for each element: accu = pool(e, accu).
    No value when init itself has none (undefined shift). -/
def foldWindow (w : Nat) (l : List Int) : Option Int :=
  (init w true).map (fun accu0 => l.foldl (fun accu input => pool input accu) accu0)

/-- Full window lifecycle: fold then activate. -/
def runWindow (w : Nat) (l : List Int) : Option Int :=
  (foldWindow w l).map activate

end MaxPoolFunction

namespace AvgPoolFunction

/-- AvgPoolFunction::pool — comp::add<TA,TA,TA>()(input, accu), with TA a
    signed accumulator type of width w. -/
def pool (w : Nat) (input accu : Int) : Int := comp.addOp w input accu

/-- AvgPoolFunction::activate — returns TO(accu/size).  `size` is an
    unsigned template parameter; HLS integer division truncates toward
    zero, and division by zero (size = 0) is undefined behaviour, so the
    embedding guards it with Option.  The quotient is then converted to
    the signed output type TO of width wo. -/
def activate (size wo : Nat) (accu : Int) : Option Int :=
  if size = 0 then none else some (toSigned wo (Int.tdiv accu (size : Int)))

/-- One window's fold: accu = init(); for each element: accu = pool(e, accu). -/
def foldWindow (w : Nat) (l : List Int) : Int :=
  l.foldl (fun accu input => pool w input accu) PoolFunction.init

end AvgPoolFunction

namespace AccPoolFunction

/-- AccPoolFunction::pool — comp::add<TA,TA,TA>()(input, accu). -/
def pool (w : Nat) (input accu : Int) : Int := comp.addOp w input accu

/-- AccPoolFunction::activate — returns accu (output type equals TA). -/
def activate (accu : Int) : Int := accu

/-- One window's fold: accu = init(); for each element: accu = pool(e, accu). -/
def foldWindow (w : Nat) (l : List Int) : Int :=
  l.foldl (fun accu input => pool w input accu) PoolFunction.init

end AccPoolFunction

namespace QuantAvgPoolFunction

/-- QuantAvgPoolFunction::pool — plain input + accu on the accumulator type
    TA (signed, width w); the result is stored back into TA, wrapping. -/
def pool (w : Nat) (input accu : Int) : Int := toSigned w (input + accu)

/-- QuantAvgPoolFunction::activate — returns TO(accu >> size).  On a signed
    HLS type the right shift is arithmetic, i.e. floor division by 2^size;
    the shifted value is then converted to the output type TO of width wo. -/
def activate (size wo : Nat) (accu : Int) : Int :=
  toSigned wo (Int.fdiv accu ((2 : Int) ^ size))

/-- One window's fold: accu = init(); for each element: accu = pool(e, accu). -/
def foldWindow (w : Nat) (l : List Int) : Int :=
  l.foldl (fun accu input => pool w input accu) PoolFunction.init

end QuantAvgPoolFunction

/-! ### Helper lemmas about the two's-complement embedding -/

theorem two_pow_pos (w : Nat) : (0 : Int) < 2 ^ w := by positivity

theorem toSigned_eq_self {w : Nat} {x : Int} (hw : 1 ≤ w) (hx : inRange w x) :
    toSigned w x = x := by
  obtain ⟨hlo, hhi⟩ := hx
  have hsplit : (2 : Int) ^ w = 2 ^ (w - 1) + 2 ^ (w - 1) := by
    have h : w - 1 + 1 = w := Nat.succ_pred_eq_of_pos hw
    calc (2 : Int) ^ w = 2 ^ (w - 1 + 1) := by rw [h]
      _ = 2 ^ (w - 1) + 2 ^ (w - 1) := by rw [pow_succ]; ring
  unfold toSigned
  rcases le_or_lt 0 x with hx0 | hx0
  · have hmod : x % (2 : Int) ^ w = x := by
      apply Int.emod_eq_of_lt hx0
      calc x < 2 ^ (w - 1) := hhi
        _ ≤ 2 ^ w := by
          exact pow_le_pow_right₀ (by norm_num) (Nat.sub_le w 1)
    simp only [hmod]
    rw [if_pos hhi]
  · have hmod : x % (2 : Int) ^ w = x + 2 ^ w := by
      have h1 : x % (2 : Int) ^ w = (x + 2 ^ w) % 2 ^ w := by simp
      rw [h1]
      apply Int.emod_eq_of_lt
      · have : -((2 : Int) ^ (w - 1)) + 2 ^ w ≤ x + 2 ^ w := by linarith
        have h2 : (0 : Int) ≤ -(2 ^ (w - 1)) + 2 ^ w := by
          rw [hsplit]; ring_nf; positivity
        linarith
      · linarith [two_pow_pos (w - 1)]
    simp only [hmod]
    rw [if_neg]
    · ring
    · push_neg
      rw [hsplit]
      linarith

theorem toSigned_emod (w : Nat) (x : Int) :
    toSigned w x % (2 : Int) ^ w = x % (2 : Int) ^ w := by
  unfold toSigned
  by_cases h : x % (2 : Int) ^ w < 2 ^ (w - 1)
  · simp [h, Int.emod_emod_of_dvd]
  · simp only [h, if_false]
    rw [Int.sub_emod, Int.emod_emod_of_dvd _ dvd_rfl, Int.emod_self]
    simp [Int.emod_emod_of_dvd]

theorem toSigned_congr {w : Nat} {a b : Int}
    (h : a % (2 : Int) ^ w = b % (2 : Int) ^ w) : toSigned w a = toSigned w b := by
  unfold toSigned
  simp only [h]

theorem toSigned_add_left (w : Nat) (a b : Int) :
    toSigned w (toSigned w a + b) = toSigned w (a + b) := by
  apply toSigned_congr
  rw [Int.add_emod, toSigned_emod, ← Int.add_emod]

theorem toSigned_add_right (w : Nat) (a b : Int) :
    toSigned w (a + toSigned w b) = toSigned w (a + b) := by
  apply toSigned_congr
  rw [Int.add_emod, toSigned_emod, ← Int.add_emod]

theorem toSigned_idem (w : Nat) (x : Int) :
    toSigned w (toSigned w x) = toSigned w x := by
  apply toSigned_congr
  exact toSigned_emod w x

theorem one_le_two_pow_int (n : Nat) : (1 : Int) ≤ 2 ^ n :=
  Int.lt_iff_add_one_le.mp (two_pow_pos n)

theorem toSigned_zero (w : Nat) : toSigned w 0 = 0 := by
  unfold toSigned
  have h := one_le_two_pow_int (w - 1)
  simp only [Int.zero_emod]
  rw [if_pos (by linarith)]

theorem toSigned_neg_one {w : Nat} (hw : 1 ≤ w) : toSigned w (-1) = -1 := by
  apply toSigned_eq_self hw
  have h := one_le_two_pow_int (w - 1)
  exact ⟨by linarith, by linarith⟩

theorem two_pow_split {w : Nat} (hw : 1 ≤ w) :
    (2 : Int) ^ w = 2 ^ (w - 1) + 2 ^ (w - 1) := by
  have h : w - 1 + 1 = w := Nat.succ_pred_eq_of_pos hw
  calc (2 : Int) ^ w = 2 ^ (w - 1 + 1) := by rw [h]
    _ = 2 ^ (w - 1) + 2 ^ (w - 1) := by rw [pow_succ]; ring

theorem toSigned_two_pow_pred {w : Nat} (hw : 1 ≤ w) :
    toSigned w ((2 : Int) ^ (w - 1)) = -((2 : Int) ^ (w - 1)) := by
  unfold toSigned
  have hsplit := two_pow_split hw
  have hpos := two_pow_pos (w - 1)
  have hmod : (2 : Int) ^ (w - 1) % 2 ^ w = 2 ^ (w - 1) := by
    apply Int.emod_eq_of_lt (le_of_lt hpos)
    linarith
  simp only [hmod]
  rw [if_neg (by linarith)]
  linarith

theorem toSigned_toSigned {w v : Nat} (hwv : w ≤ v) (x : Int) :
    toSigned w (toSigned v x) = toSigned w x := by
  apply toSigned_congr
  have hdvd : ((2 : Int) ^ w) ∣ ((2 : Int) ^ v) := pow_dvd_pow 2 hwv
  calc toSigned v x % (2 : Int) ^ w
      = toSigned v x % (2 : Int) ^ v % (2 : Int) ^ w :=
        (Int.emod_emod_of_dvd _ hdvd).symm
    _ = x % (2 : Int) ^ v % (2 : Int) ^ w := by rw [toSigned_emod]
    _ = x % (2 : Int) ^ w := Int.emod_emod_of_dvd _ hdvd

theorem maxInit_signed {w : Nat} (hw : 1 ≤ w) (hw32 : w ≤ 32) :
    MaxPoolFunction.init w true = some (-((2 : Int) ^ (w - 1))) := by
  unfold MaxPoolFunction.init
  have hc : convT w true (-1) < 0 := by
    unfold convT
    rw [if_pos rfl, toSigned_neg_one hw]
    norm_num
  rw [if_pos hc, if_neg (by omega : ¬ 32 ≤ w - 1)]
  have hconv : convT w true (toSigned 32 ((2 : Int) ^ (w - 1)))
      = toSigned w ((2 : Int) ^ (w - 1)) := by
    unfold convT
    rw [if_pos rfl]
    exact toSigned_toSigned hw32 _
  rw [hconv, toSigned_two_pow_pred hw]

theorem maxInit_unsigned (w : Nat) : MaxPoolFunction.init w false = some 0 := by
  unfold MaxPoolFunction.init
  have hnonneg : 0 ≤ (-1 : Int) % 2 ^ w :=
    Int.emod_nonneg _ (ne_of_gt (two_pow_pos w))
  have hc : ¬ convT w false (-1) < 0 := by
    unfold convT
    simp only [Bool.false_eq_true, ite_false]
    linarith
  rw [if_neg hc]
  unfold convT
  simp

theorem maxInit_isSome {w : Nat} (hw32 : w ≤ 32) (sgn : Bool) :
    (MaxPoolFunction.init w sgn).isSome = true := by
  unfold MaxPoolFunction.init
  by_cases hc : convT w sgn (-1) < 0
  · rw [if_pos hc, if_neg (by omega : ¬ 32 ≤ w - 1)]
    rfl
  · rw [if_neg hc]
    rfl

theorem le_foldl_maxstep : ∀ (l : List Int) (i : Int),
    i ≤ l.foldl (fun accu x => max x accu) i := by
  intro l
  induction l with
  | nil => intro i; exact le_refl i
  | cons x xs ih =>
    intro i
    calc i ≤ max x i := le_max_right x i
      _ ≤ xs.foldl (fun accu y => max y accu) (max x i) := ih (max x i)

theorem foldl_maxstep_eq_or_mem : ∀ (l : List Int) (i : Int),
    l.foldl (fun accu x => max x accu) i = i ∨
    l.foldl (fun accu x => max x accu) i ∈ l := by
  intro l
  induction l with
  | nil => intro i; exact Or.inl rfl
  | cons x xs ih =>
    intro i
    simp only [List.foldl_cons]
    rcases ih (max x i) with h | h
    · rcases max_choice x i with hx | hx
      · right; rw [h, hx]; exact List.mem_cons_self x xs
      · left; rw [h, hx]
    · right; exact List.mem_cons_of_mem x h

theorem foldl_maxstep_ub : ∀ (l : List Int) (i x : Int), x ∈ l →
    x ≤ l.foldl (fun accu y => max y accu) i := by
  intro l
  induction l with
  | nil => intro i x hx; exact absurd hx (List.not_mem_nil x)
  | cons y ys ih =>
    intro i x hx
    simp only [List.foldl_cons]
    rcases List.mem_cons.mp hx with h | h
    · calc x = y := h
        _ ≤ max y i := le_max_left y i
        _ ≤ ys.foldl (fun accu z => max z accu) (max y i) := le_foldl_maxstep ys _
    · exact ih (max y i) x h

theorem addOp_assoc (w : Nat) (a b c : Int) :
    comp.addOp w (comp.addOp w a b) c = comp.addOp w a (comp.addOp w b c) := by
  unfold comp.addOp
  rw [toSigned_add_left, toSigned_add_right]
  exact toSigned_congr (by rw [add_assoc])

theorem addOp_comm (w : Nat) (a b : Int) :
    comp.addOp w a b = comp.addOp w b a := by
  unfold comp.addOp
  rw [add_comm]

theorem addOp_rcomm (w : Nat) (b x y : Int) :
    comp.addOp w y (comp.addOp w x b) = comp.addOp w x (comp.addOp w y b) := by
  unfold comp.addOp
  rw [toSigned_add_right, toSigned_add_right]
  exact toSigned_congr (by ring_nf)

/-- Folding with a right-commutative operation is invariant under
    permutation of the list. -/
theorem foldl_perm_of_rcomm {f : Int → Int → Int}
    (hf : ∀ b x y, f (f b x) y = f (f b y) x) :
    ∀ {l₁ l₂ : List Int}, l₁.Perm l₂ → ∀ b, l₁.foldl f b = l₂.foldl f b := by
  intro l₁ l₂ p
  induction p with
  | nil => intro b; rfl
  | cons x p ih => intro b; simp only [List.foldl_cons]; exact ih _
  | swap x y l => intro b; simp only [List.foldl_cons]; rw [hf]
  | trans p₁ p₂ ih₁ ih₂ => intro b; rw [ih₁ b, ih₂ b]

theorem foldl_addstep (w : Nat) : ∀ (l : List Int) (a : Int),
    l.foldl (fun accu x => toSigned w (x + accu)) (toSigned w a)
      = toSigned w (a + l.sum) := by
  intro l
  induction l with
  | nil => intro a; simp
  | cons x xs ih =>
    intro a
    simp only [List.foldl_cons, List.sum_cons]
    rw [toSigned_add_right]
    rw [ih (x + a)]
    exact congrArg (toSigned w) (by ring)

theorem avgFold_eq_wrap_sum (w : Nat) (l : List Int) :
    AvgPoolFunction.foldWindow w l = toSigned w l.sum := by
  show l.foldl (fun accu x => toSigned w (x + accu)) 0 = toSigned w l.sum
  conv_lhs => rw [← toSigned_zero w]
  rw [foldl_addstep w l 0]
  exact congrArg (toSigned w) (by ring)

theorem accFold_eq_wrap_sum (w : Nat) (l : List Int) :
    AccPoolFunction.foldWindow w l = toSigned w l.sum :=
  avgFold_eq_wrap_sum w l

theorem quantFold_eq_wrap_sum (w : Nat) (l : List Int) :
    QuantAvgPoolFunction.foldWindow w l = toSigned w l.sum :=
  avgFold_eq_wrap_sum w l

/-! ### Claims -/

/-- C1: For the Average strategy, activate(accu) returns accu / size using
    truncating integer division that rounds toward zero for negative
    accumulators; in particular with size = 2 and accu = -3 it returns -1
    (not the floor value -2). -/
theorem avg_activate_truncating (size wo : Nat) (accu : Int)
    (hs : 0 < size) (hw : 1 ≤ wo)
    (hr : inRange wo (Int.tdiv accu (size : Int))) :
    AvgPoolFunction.activate size wo accu = some (Int.tdiv accu (size : Int)) ∧
    AvgPoolFunction.activate 2 wo (-3) = some (-1) ∧
    Int.tdiv (-3) 2 = -1 := by
  refine ⟨?_, ?_, by decide⟩
  · unfold AvgPoolFunction.activate
    rw [if_neg (Nat.pos_iff_ne_zero.mp hs)]
    rw [toSigned_eq_self hw hr]
  · unfold AvgPoolFunction.activate
    rw [if_neg (by norm_num)]
    have h : Int.tdiv (-3) (((2 : Nat) : Int)) = -1 := by decide
    rw [h, toSigned_neg_one hw]

/-- Witness for C1 at size = 2, output width 8, accu = -3. -/
theorem avg_activate_truncating_witness :
    AvgPoolFunction.activate 2 8 (-3) = some (Int.tdiv (-3) 2) ∧
    AvgPoolFunction.activate 2 8 (-3) = some (-1) ∧
    Int.tdiv (-3) 2 = -1 :=
  avg_activate_truncating 2 8 (-3) (by decide) (by decide) (by decide)

/-- C2: The code intends the minimum representable value of T (it names the
    constant T_MIN_VAL) and delivers it for every unsigned type and for
    signed widths up to 32; but for a signed type of width ≥ 33 the int
    shift 1<<(width-1) has count ≥ 32 — undefined behaviour — so it produces
    no value at all, in particular not -(2^(w-1)): the code is wrong at
    those widths, exhibited at width 33. -/
theorem max_init_min_value (w : Nat) (hw : 1 ≤ w) (hw32 : w ≤ 32) :
    MaxPoolFunction.init w true = some (-((2 : Int) ^ (w - 1))) ∧
    MaxPoolFunction.init w false = some 0 ∧
    MaxPoolFunction.init 33 true = none :=
  ⟨maxInit_signed hw hw32, maxInit_unsigned w, by decide⟩

/-- Witness for C2 at width 8. -/
theorem max_init_min_value_witness :
    MaxPoolFunction.init 8 true = some (-((2 : Int) ^ (8 - 1))) ∧
    MaxPoolFunction.init 8 false = some 0 ∧
    MaxPoolFunction.init 33 true = none :=
  max_init_min_value 8 (by decide) (by decide)

/-- C3: For every strategy (Max, Average, Accumulate, Quantized-Average),
    pool is associative and commutative over the accumulator type, so
    folding the elements of a window from init() is invariant under any
    permutation of the window (for Max the fold yields an actual value at
    every width up to 32, where init is defined). -/
theorem pool_assoc_comm_perm (w : Nat) (a b c : Int) (l₁ l₂ : List Int)
    (hp : l₁.Perm l₂) :
    (MaxPoolFunction.pool (MaxPoolFunction.pool a b) c
       = MaxPoolFunction.pool a (MaxPoolFunction.pool b c) ∧
     MaxPoolFunction.pool a b = MaxPoolFunction.pool b a ∧
     MaxPoolFunction.foldWindow w l₁ = MaxPoolFunction.foldWindow w l₂ ∧
     (w ≤ 32 → (MaxPoolFunction.foldWindow w l₁).isSome = true)) ∧
    (AvgPoolFunction.pool w (AvgPoolFunction.pool w a b) c
       = AvgPoolFunction.pool w a (AvgPoolFunction.pool w b c) ∧
     AvgPoolFunction.pool w a b = AvgPoolFunction.pool w b a ∧
     AvgPoolFunction.foldWindow w l₁ = AvgPoolFunction.foldWindow w l₂) ∧
    (AccPoolFunction.pool w (AccPoolFunction.pool w a b) c
       = AccPoolFunction.pool w a (AccPoolFunction.pool w b c) ∧
     AccPoolFunction.pool w a b = AccPoolFunction.pool w b a ∧
     AccPoolFunction.foldWindow w l₁ = AccPoolFunction.foldWindow w l₂) ∧
    (QuantAvgPoolFunction.pool w (QuantAvgPoolFunction.pool w a b) c
       = QuantAvgPoolFunction.pool w a (QuantAvgPoolFunction.pool w b c) ∧
     QuantAvgPoolFunction.pool w a b = QuantAvgPoolFunction.pool w b a ∧
     QuantAvgPoolFunction.foldWindow w l₁ = QuantAvgPoolFunction.foldWindow w l₂) := by
  have hquant_eq : ∀ x y : Int,
      QuantAvgPoolFunction.pool w x y = comp.addOp w x y := fun x y => rfl
  refine ⟨⟨?_, ?_, ?_, ?_⟩, ⟨?_, ?_, ?_⟩, ⟨?_, ?_, ?_⟩, ⟨?_, ?_, ?_⟩⟩
  · exact max_assoc a b c
  · exact max_comm a b
  · unfold MaxPoolFunction.foldWindow
    cases h : MaxPoolFunction.init w true with
    | none => rfl
    | some i =>
      show some _ = some _
      congr 1
      exact foldl_perm_of_rcomm (fun i x y => max_left_comm y x i) hp i
  · intro hw32
    have hs := maxInit_isSome (w := w) hw32 true
    unfold MaxPoolFunction.foldWindow
    cases h : MaxPoolFunction.init w true with
    | none => rw [h] at hs; simp at hs
    | some i => rfl
  · exact addOp_assoc w a b c
  · exact addOp_comm w a b
  · exact foldl_perm_of_rcomm (fun i x y => addOp_rcomm w i x y) hp _
  · exact addOp_assoc w a b c
  · exact addOp_comm w a b
  · exact foldl_perm_of_rcomm (fun i x y => addOp_rcomm w i x y) hp _
  · rw [hquant_eq, hquant_eq, hquant_eq, hquant_eq]
    exact addOp_assoc w a b c
  · rw [hquant_eq, hquant_eq]
    exact addOp_comm w a b
  · exact foldl_perm_of_rcomm
      (fun i x y => by rw [hquant_eq, hquant_eq, hquant_eq, hquant_eq]
                       exact addOp_rcomm w i x y) hp _

/-- Witness for C3 at width 8, a = 1, b = 2, c = 3, window [1, 2] against
    its permutation [2, 1]. -/
theorem pool_assoc_comm_perm_witness :
    (MaxPoolFunction.pool (MaxPoolFunction.pool 1 2) 3
       = MaxPoolFunction.pool 1 (MaxPoolFunction.pool 2 3) ∧
     MaxPoolFunction.pool 1 2 = MaxPoolFunction.pool 2 1 ∧
     MaxPoolFunction.foldWindow 8 [1, 2] = MaxPoolFunction.foldWindow 8 [2, 1] ∧
     (8 ≤ 32 → (MaxPoolFunction.foldWindow 8 [1, 2]).isSome = true)) ∧
    (AvgPoolFunction.pool 8 (AvgPoolFunction.pool 8 1 2) 3
       = AvgPoolFunction.pool 8 1 (AvgPoolFunction.pool 8 2 3) ∧
     AvgPoolFunction.pool 8 1 2 = AvgPoolFunction.pool 8 2 1 ∧
     AvgPoolFunction.foldWindow 8 [1, 2] = AvgPoolFunction.foldWindow 8 [2, 1]) ∧
    (AccPoolFunction.pool 8 (AccPoolFunction.pool 8 1 2) 3
       = AccPoolFunction.pool 8 1 (AccPoolFunction.pool 8 2 3) ∧
     AccPoolFunction.pool 8 1 2 = AccPoolFunction.pool 8 2 1 ∧
     AccPoolFunction.foldWindow 8 [1, 2] = AccPoolFunction.foldWindow 8 [2, 1]) ∧
    (QuantAvgPoolFunction.pool 8 (QuantAvgPoolFunction.pool 8 1 2) 3
       = QuantAvgPoolFunction.pool 8 1 (QuantAvgPoolFunction.pool 8 2 3) ∧
     QuantAvgPoolFunction.pool 8 1 2 = QuantAvgPoolFunction.pool 8 2 1 ∧
     QuantAvgPoolFunction.foldWindow 8 [1, 2]
       = QuantAvgPoolFunction.foldWindow 8 [2, 1]) :=
  pool_assoc_comm_perm 8 1 2 3 [1, 2] [2, 1] (by decide)

/-- C4 counterexample: at signed width 33 the init shift is undefined
    behaviour, so folding the window [5] produces no value — in particular
    not its maximum 5 — falsifying the claim's every-window statement. -/
theorem max_window_width33_undefined :
    MaxPoolFunction.runWindow 33 [5] = none ∧
    MaxPoolFunction.runWindow 33 [5] ≠ some 5 := by
  exact ⟨by decide, by decide⟩

/-- C4 (amended to accumulator widths up to 32, where the init shift is
    defined): folding a non-empty window of representable elements from
    init() and applying activate yields exactly the maximum of the window's
    elements (a member of the window that bounds every element); in
    particular at width 8 the window [3, -5, 9, 2] starts from identity
    -128, folds to 9, and activate returns 9. -/
theorem max_window_correct (w : Nat) (l : List Int) (hw : 1 ≤ w)
    (hw32 : w ≤ 32) (hne : l ≠ []) (hall : ∀ x ∈ l, inRange w x) :
    (∃ m, MaxPoolFunction.runWindow w l = some m ∧ m ∈ l ∧ ∀ x ∈ l, x ≤ m) ∧
    MaxPoolFunction.init 8 true = some (-128) ∧
    MaxPoolFunction.foldWindow 8 [3, -5, 9, 2] = some 9 ∧
    MaxPoolFunction.runWindow 8 [3, -5, 9, 2] = some 9 := by
  refine ⟨?_, by decide, by decide, by decide⟩
  have hinit := maxInit_signed hw hw32
  refine ⟨l.foldl (fun accu x => max x accu) (-((2 : Int) ^ (w - 1))),
    ?_, ?_, ?_⟩
  · unfold MaxPoolFunction.runWindow MaxPoolFunction.foldWindow
    rw [hinit]
    rfl
  · rcases foldl_maxstep_eq_or_mem l (-((2 : Int) ^ (w - 1))) with h | h
    · obtain ⟨x, hx⟩ := List.exists_mem_of_ne_nil l hne
      have hub := foldl_maxstep_ub l (-((2 : Int) ^ (w - 1))) x hx
      have hge : -((2 : Int) ^ (w - 1)) ≤ x := (hall x hx).1
      rw [h] at hub
      rw [h, ← le_antisymm hub hge]
      exact hx
    · exact h
  · intro x hx
    exact foldl_maxstep_ub l _ x hx

/-- Witness for the amended C4 at width 8 on the window [3, -5, 9, 2]. -/
theorem max_window_correct_witness :
    ((∃ m, MaxPoolFunction.runWindow 8 [3, -5, 9, 2] = some m ∧
       m ∈ [3, -5, 9, 2] ∧ ∀ x ∈ [3, -5, 9, 2], x ≤ m) ∧
     MaxPoolFunction.init 8 true = some (-128) ∧
     MaxPoolFunction.foldWindow 8 [3, -5, 9, 2] = some 9 ∧
     MaxPoolFunction.runWindow 8 [3, -5, 9, 2] = some 9) :=
  max_window_correct 8 [3, -5, 9, 2] (by decide) (by decide) (by decide)
    (by decide)

/-- C5: For the Quantized-Average strategy, activate(accu) returns accu
    right-shifted by size bits — size is a shift amount, not an element
    count; folding [4, 8, 12, 16] with size = 2 yields accumulator 40 and
    activate returns 40 >> 2 = 10. -/
theorem quant_avg_activate_shift (size wo : Nat) (accu : Int) (hw : 1 ≤ wo)
    (hr : inRange wo (Int.fdiv accu ((2 : Int) ^ size))) :
    QuantAvgPoolFunction.activate size wo accu
      = Int.fdiv accu ((2 : Int) ^ size) ∧
    QuantAvgPoolFunction.foldWindow 8 [4, 8, 12, 16] = 40 ∧
    QuantAvgPoolFunction.activate 2 8 40 = 10 := by
  refine ⟨?_, by decide, by decide⟩
  unfold QuantAvgPoolFunction.activate
  exact toSigned_eq_self hw hr

/-- Witness for C5 at size = 2, output width 8, accu = 40. -/
theorem quant_avg_activate_shift_witness :
    QuantAvgPoolFunction.activate 2 8 40 = Int.fdiv 40 ((2 : Int) ^ 2) ∧
    QuantAvgPoolFunction.foldWindow 8 [4, 8, 12, 16] = 40 ∧
    QuantAvgPoolFunction.activate 2 8 40 = 10 :=
  quant_avg_activate_shift 2 8 40 (by decide) (by decide)

/-- C6: For the Average strategy, folding a window from init() accumulates
    the sum of the elements (exactly, whenever the sum is representable),
    and activate divides that sum by size: the window [2, 4, 6, 8] with
    size = 4 folds to accumulator 20 and activate returns 5. -/
theorem avg_window_correct (w : Nat) (l : List Int) (hw : 1 ≤ w)
    (hsum : inRange w l.sum) :
    AvgPoolFunction.foldWindow w l = toSigned w l.sum ∧
    AvgPoolFunction.foldWindow w l = l.sum ∧
    AvgPoolFunction.foldWindow 8 [2, 4, 6, 8] = 20 ∧
    AvgPoolFunction.activate 4 8 20 = some 5 := by
  refine ⟨avgFold_eq_wrap_sum w l, ?_, by decide, by decide⟩
  rw [avgFold_eq_wrap_sum w l]
  exact toSigned_eq_self hw hsum

/-- Witness for C6 at width 8 on the window [2, 4, 6, 8]. -/
theorem avg_window_correct_witness :
    AvgPoolFunction.foldWindow 8 [2, 4, 6, 8] = toSigned 8 ([2, 4, 6, 8] : List Int).sum ∧
    AvgPoolFunction.foldWindow 8 [2, 4, 6, 8] = ([2, 4, 6, 8] : List Int).sum ∧
    AvgPoolFunction.foldWindow 8 [2, 4, 6, 8] = 20 ∧
    AvgPoolFunction.activate 4 8 20 = some 5 :=
  avg_window_correct 8 [2, 4, 6, 8] (by decide) (by decide)

/-- C7: For the Accumulate strategy, activate is the identity on the
    accumulator, so the final output is the unscaled sum of the window's
    elements; the window [1, 2, 3, 4] folds to 10 and activate returns 10. -/
theorem acc_window_correct (w : Nat) (l : List Int) (a : Int) (hw : 1 ≤ w)
    (hsum : inRange w l.sum) :
    AccPoolFunction.activate a = a ∧
    AccPoolFunction.foldWindow w l = l.sum ∧
    AccPoolFunction.foldWindow 8 [1, 2, 3, 4] = 10 ∧
    AccPoolFunction.activate (AccPoolFunction.foldWindow 8 [1, 2, 3, 4]) = 10 := by
  refine ⟨rfl, ?_, by decide, by decide⟩
  rw [accFold_eq_wrap_sum w l]
  exact toSigned_eq_self hw hsum

/-- Witness for C7 at width 8 on the window [1, 2, 3, 4], a = 7. -/
theorem acc_window_correct_witness :
    AccPoolFunction.activate 7 = 7 ∧
    AccPoolFunction.foldWindow 8 [1, 2, 3, 4] = ([1, 2, 3, 4] : List Int).sum ∧
    AccPoolFunction.foldWindow 8 [1, 2, 3, 4] = 10 ∧
    AccPoolFunction.activate (AccPoolFunction.foldWindow 8 [1, 2, 3, 4]) = 10 :=
  acc_window_correct 8 [1, 2, 3, 4] 7 (by decide) (by decide)

/-- C8: Identity law — for the sum-based strategies,
    pool(x, init()) = pool(init(), x) = x (for representable x), and for
    Max, pool(x, init()) = x whenever x ≥ init(). -/
theorem pool_identity_law (w : Nat) (x : Int) (hw : 1 ≤ w)
    (hx : inRange w x) :
    AvgPoolFunction.pool w x PoolFunction.init = x ∧
    AvgPoolFunction.pool w PoolFunction.init x = x ∧
    AccPoolFunction.pool w x PoolFunction.init = x ∧
    AccPoolFunction.pool w PoolFunction.init x = x ∧
    QuantAvgPoolFunction.pool w x PoolFunction.init = x ∧
    QuantAvgPoolFunction.pool w PoolFunction.init x = x ∧
    (∀ i, MaxPoolFunction.init w true = some i → i ≤ x →
      MaxPoolFunction.pool x i = x) := by
  have hright : toSigned w (x + PoolFunction.init) = x := by
    show toSigned w (x + 0) = x
    rw [add_zero]
    exact toSigned_eq_self hw hx
  have hleft : toSigned w (PoolFunction.init + x) = x := by
    show toSigned w (0 + x) = x
    rw [zero_add]
    exact toSigned_eq_self hw hx
  exact ⟨hright, hleft, hright, hleft, hright, hleft,
    fun i _ hge => max_eq_left hge⟩

/-- Witness for C8 at width 8, x = 5. -/
theorem pool_identity_law_witness :
    AvgPoolFunction.pool 8 5 PoolFunction.init = 5 ∧
    AvgPoolFunction.pool 8 PoolFunction.init 5 = 5 ∧
    AccPoolFunction.pool 8 5 PoolFunction.init = 5 ∧
    AccPoolFunction.pool 8 PoolFunction.init 5 = 5 ∧
    QuantAvgPoolFunction.pool 8 5 PoolFunction.init = 5 ∧
    QuantAvgPoolFunction.pool 8 PoolFunction.init 5 = 5 ∧
    (∀ i, MaxPoolFunction.init 8 true = some i → i ≤ 5 →
      MaxPoolFunction.pool 5 i = 5) :=
  pool_identity_law 8 5 (by decide) (by decide)

/-- C9 counterexample: the claim quantifies over every value of the
    compile-time parameters, but the Average activate with size = 0 divides
    by zero, and the Max init on a signed accumulator of width 33 shifts a
    32-bit int by 32 bits — both undefined behaviour in the C++ source, so
    neither operation produces a value. -/
theorem pool_ops_not_all_total :
    AvgPoolFunction.activate 0 8 5 = none ∧
    MaxPoolFunction.init 33 true = none :=
  ⟨rfl, by decide⟩

/-- C9 (amended): for every nonzero size, for Max-init widths at most 32,
    all inputs and both signednesses, each of init, pool, and activate of
    all four strategies is total: every operation produces a value. -/
theorem pool_ops_total (size w wo : Nat) (a b : Int) (sgn : Bool)
    (hs : 0 < size) (hw32 : w ≤ 32) :
    (AvgPoolFunction.activate size wo a).isSome = true ∧
    (MaxPoolFunction.init w sgn).isSome = true ∧
    (∃ v, MaxPoolFunction.pool a b = v) ∧
    (∃ v, MaxPoolFunction.activate a = v) ∧
    (∃ v, PoolFunction.init = v) ∧
    (∃ v, AvgPoolFunction.pool w a b = v) ∧
    (∃ v, AccPoolFunction.pool w a b = v) ∧
    (∃ v, AccPoolFunction.activate a = v) ∧
    (∃ v, QuantAvgPoolFunction.pool w a b = v) ∧
    (∃ v, QuantAvgPoolFunction.activate size wo a = v) := by
  refine ⟨?_, maxInit_isSome hw32 sgn, ⟨_, rfl⟩, ⟨_, rfl⟩, ⟨_, rfl⟩,
    ⟨_, rfl⟩, ⟨_, rfl⟩, ⟨_, rfl⟩, ⟨_, rfl⟩, ⟨_, rfl⟩⟩
  unfold AvgPoolFunction.activate
  rw [if_neg (Nat.pos_iff_ne_zero.mp hs)]
  rfl

/-- Witness for the amended C9 at size = 1, widths 8, a = 5, b = 3,
    signed. -/
theorem pool_ops_total_witness :
    (AvgPoolFunction.activate 1 8 5).isSome = true ∧
    (MaxPoolFunction.init 8 true).isSome = true ∧
    (∃ v, MaxPoolFunction.pool 5 3 = v) ∧
    (∃ v, MaxPoolFunction.activate 5 = v) ∧
    (∃ v, PoolFunction.init = v) ∧
    (∃ v, AvgPoolFunction.pool 8 5 3 = v) ∧
    (∃ v, AccPoolFunction.pool 8 5 3 = v) ∧
    (∃ v, AccPoolFunction.activate 5 = v) ∧
    (∃ v, QuantAvgPoolFunction.pool 8 5 3 = v) ∧
    (∃ v, QuantAvgPoolFunction.activate 1 8 5 = v) :=
  pool_ops_total 1 8 8 5 3 true (by decide) (by decide)

/-- C10: For the Quantized-Average strategy with a signed accumulator,
    activate performs an arithmetic right shift: for negative accumulators
    the result is the floor of accu / 2^size (rounded toward negative
    infinity, unlike the Average strategy's truncation), and the shifted
    value is converted to the output type TO, wrapping modulo TO's width
    when it does not fit. -/
theorem quant_avg_arithmetic_shift (size wo : Nat) (accu : Int)
    (_hneg : accu < 0) (hw : 1 ≤ wo)
    (hr : inRange wo (Int.fdiv accu ((2 : Int) ^ size))) :
    QuantAvgPoolFunction.activate size wo accu
      = Int.fdiv accu ((2 : Int) ^ size) ∧
    QuantAvgPoolFunction.activate 1 8 (-3) = -2 ∧
    Int.tdiv (-3) 2 = -1 ∧
    QuantAvgPoolFunction.activate 2 4 40 = -6 := by
  refine ⟨?_, by decide, by decide, by decide⟩
  unfold QuantAvgPoolFunction.activate
  exact toSigned_eq_self hw hr

/-- Witness for C10 at size = 1, output width 8, accu = -3. -/
theorem quant_avg_arithmetic_shift_witness :
    QuantAvgPoolFunction.activate 1 8 (-3) = Int.fdiv (-3) ((2 : Int) ^ 1) ∧
    QuantAvgPoolFunction.activate 1 8 (-3) = -2 ∧
    Int.tdiv (-3) 2 = -1 ∧
    QuantAvgPoolFunction.activate 2 4 40 = -6 :=
  quant_avg_arithmetic_shift 1 8 (-3) (by decide) (by decide) (by decide)
